import Mathlib

/-!
# `request`: a fluent HTTP client helper (request.go)

A shallow embedding of `src/request.go`.  The client's own code (`New`, the
`With*` builders, `do`, `DoAll`, `BodyMap`) is translated statement by statement.
`BodyMap` is not well-typed Go (its parameter `result *any` is used as a map); the
embedding does not repair it: a path of `BodyMap` ends where it reaches a statement
that does not type-check.

The Go standard library the code calls is not part of the repository; the pieces that
decide the properties below are modelled from their documented behaviour: `http.Header`
(canonical keys), `url.Values` (`Set`, `Encode`), `url.ParseQuery`, `bytes.Reader`,
`ioutil.ReadAll`, and the way `url.Parse` and `URL.String` separate and re-assemble
query and fragment.  The error `json.Unmarshal` returns, the transport
(`http.Client.Do`) and the syntax check of the scheme/authority/path part of a URL are
parameters.
-/

namespace HttpClient

/-! ## Strings and maps -/

/-- A Go `string` is a sequence of bytes; each byte is written as the character of
the same code. -/
abbrev Str := List Char

/-- A Go map with `string` keys, as the list of its entries.  Maps built with
`GoMap.set` from the empty map hold at most one entry per key. -/
abbrev GoMap (V : Type) := List (Str × V)

/-- The map index `m[k]` (`none` when the key is absent). -/
def GoMap.get {V : Type} (m : GoMap V) (k : Str) : Option V :=
  match m with
  | [] => none
  | (k', v) :: rest => if k' = k then some v else GoMap.get rest k

/-- The map assignment `m[k] = v`: replaces the entry of `k`, or adds one. -/
def GoMap.set {V : Type} (m : GoMap V) (k : Str) (v : V) : GoMap V :=
  match m with
  | [] => [(k, v)]
  | (k', v') :: rest => if k' = k then (k, v) :: rest else (k', v') :: GoMap.set rest k v

/-- The keys of a map, in the order of its entries. -/
def GoMap.keys {V : Type} (m : GoMap V) : List Str := m.map Prod.fst

/-! ## `net/textproto`: canonical header keys -/

/-- The `tchar` test of RFC 7230 (`validHeaderFieldByte`, and `httpguts.IsTokenRune`
on bytes): letters, digits and the punctuation a token may hold. -/
def isTokenByte (c : Char) : Bool :=
  c.isAlphanum ||
    [Char.ofNat 33, Char.ofNat 35, Char.ofNat 36, Char.ofNat 37, Char.ofNat 38,
     Char.ofNat 39, Char.ofNat 42, Char.ofNat 43, Char.ofNat 45, Char.ofNat 46,
     Char.ofNat 94, Char.ofNat 95, Char.ofNat 96, Char.ofNat 124, Char.ofNat 126].contains c

/-- The casing loop of `canonicalMIMEHeaderKey`: upper case for the first letter and
for a letter after a hyphen, lower case elsewhere. -/
def canonCase : Bool → Str → Str
  | _, [] => []
  | upper, c :: cs =>
    let c' := if upper && c.isLower then c.toUpper
              else if !upper && c.isUpper then c.toLower else c
    c' :: canonCase (c' == '-') cs

/-- The function `textproto.CanonicalMIMEHeaderKey`: a key holding a byte that is not
a token byte (a space too) is returned unchanged, any other key is re-cased. -/
def CanonicalMIMEHeaderKey (s : Str) : Str :=
  if s.all isTokenByte then canonCase true s else s

/-! ## `net/http`: `Header` -/

/-- The type `http.Header`, a `map[string][]string`. -/
abbrev Header := GoMap (List Str)

/-- The call `h.Set(key, value)`: the canonical key gets the single value. -/
def Header.Set (h : Header) (key value : Str) : Header :=
  GoMap.set h (CanonicalMIMEHeaderKey key) [value]

/-- The call `h.Get(key)`: the first value of the canonical key, `""` without one. -/
def Header.Get (h : Header) (key : Str) : Str :=
  match GoMap.get h (CanonicalMIMEHeaderKey key) with
  | some (v :: _) => v
  | _ => []

/-! ## `net/url`: `Values`, escaping -/

/-- The type `url.Values`, a `map[string][]string`. -/
abbrev Values := GoMap (List Str)

/-- The call `v.Set(key, value)`: no canonicalisation, the key gets the single value. -/
def Values.Set (v : Values) (key value : Str) : Values :=
  GoMap.set v key [value]

/-- The test `shouldEscape(c, encodeQueryComponent)`: only unreserved bytes stay. -/
def shouldEscape (c : Char) : Bool :=
  !(c.isAlphanum || c == '-' || c == '_' || c == '.' || c == '~')

/-- The digit table `upperhex`. -/
def upperhex (n : Nat) : Char :=
  if n < 10 then Char.ofNat (48 + n) else Char.ofNat (55 + n)

/-- One byte of `QueryEscape`. -/
def escapeByte (c : Char) : Str :=
  if c == ' ' then ['+']
  else if shouldEscape c then ['%', upperhex (c.toNat / 16 % 16), upperhex (c.toNat % 16)]
  else [c]

/-- The function `url.QueryEscape`. -/
def QueryEscape : Str → Str
  | [] => []
  | c :: cs => escapeByte c ++ QueryEscape cs

/-- Bytewise lexicographic order of Go strings, as a test (`a <= b`). -/
def strLe : Str → Str → Bool
  | [], _ => true
  | _ :: _, [] => false
  | a :: as, b :: bs => a.toNat < b.toNat || (a == b && strLe as bs)

/-- The inner loop of `Values.Encode`: the values of one key. -/
def encodeValues (keyEscaped : Str) : Str → List Str → Str
  | buf, [] => buf
  | buf, v :: vs =>
    let buf := if buf.length > 0 then buf ++ ['&'] else buf
    encodeValues keyEscaped (buf ++ keyEscaped ++ ['='] ++ QueryEscape v) vs

/-- The outer loop of `Values.Encode`, over the sorted keys. -/
def encodeKeys (v : Values) : Str → List Str → Str
  | buf, [] => buf
  | buf, k :: ks => encodeKeys v (encodeValues (QueryEscape k) buf ((GoMap.get v k).getD [])) ks

/-- The call `v.Encode()`: `key=value` pairs joined by `&`, keys sorted. -/
def Values.Encode (v : Values) : Str :=
  if v.length = 0 then []
  else encodeKeys v [] ((GoMap.keys v).insertionSort (fun a b => strLe a b = true))

/-! ## `net/url`: `Parse` and `URL.String` -/

/-- A Go `error`: a message, or a cause wrapped with context by `fmt.Errorf("...: %w")`. -/
inductive Error where
  | msg (text : String)
  | wrap (context : String) (cause : Error)
  deriving DecidableEq, Repr

/-- The function `strings.Cut(s, sep)` for a one-byte separator: the text before the
first separator, the text after it, and whether there is one. -/
def cut (sep : Char) : Str → Str × Str × Bool
  | [] => ([], [], false)
  | c :: cs =>
    if c = sep then ([], cs, true)
    else ((c :: (cut sep cs).1), (cut sep cs).2.1, (cut sep cs).2.2)

/-- The test `stringContainsCTLByte`: a byte below the space, or DEL. -/
def stringContainsCTLByte (s : Str) : Bool :=
  s.any (fun b => decide (b.toNat < 32) || decide (b.toNat = 127))

/-- The type `url.URL`, reduced to what `do` touches: the query and, around it, the
text before it (scheme, authority and path, kept as written) and the fragment. -/
structure URL where
  hier : Str
  ForceQuery : Bool
  RawQuery : Str
  Fragment : Str
  deriving DecidableEq, Repr

/-- The function `url.Parse`: the fragment is what follows the first `#`; what precedes
it must hold no control byte; a lone final `?` sets `ForceQuery`, otherwise the query
is what follows the first `?`.  The syntax of the remaining text and of the fragment
is checked by the parameters `okHier` and `okFragment`. -/
def urlParse (okHier okFragment : Str → Bool) (rawURL : Str) : Except Error URL :=
  let u := (cut '#' rawURL).1
  let frag := (cut '#' rawURL).2.1
  if stringContainsCTLByte u then
    .error (.wrap "parse" (.msg "net/url: invalid control character in URL"))
  else
    let force := (u.getLast? == some '?') && (u.count '?' == 1)
    let rest := if force then u.dropLast else (cut '?' u).1
    let query := if force then [] else (cut '?' u).2.1
    if !okHier rest then .error (.wrap "parse" (.msg "invalid URL"))
    else if frag ≠ [] && !okFragment frag then
      .error (.wrap "parse" (.msg "invalid URL escape"))
    else .ok { hier := rest, ForceQuery := force, RawQuery := query, Fragment := frag }

/-- The method `u.String()`: the text before the query, then `?` and the query when
there is one (or `ForceQuery`), then `#` and the fragment when there is one. -/
def URL.String (u : URL) : Str :=
  u.hier ++ (if u.ForceQuery || u.RawQuery ≠ [] then '?' :: u.RawQuery else [])
    ++ (if u.Fragment ≠ [] then '#' :: u.Fragment else [])

/-! ## `bytes.Reader`, response bodies -/

/-- The type `bytes.Reader`: the bytes and the read offset. -/
structure Reader where
  s : Str
  i : Nat
  deriving DecidableEq, Repr

/-- The constructor `bytes.NewReader(b)`. -/
def NewReader (b : Str) : Reader := { s := b, i := 0 }

/-- The method `r.Len()`: the number of unread bytes. -/
def Reader.Len (r : Reader) : Nat := r.s.length - r.i

/-- The unread bytes, which the next reads deliver. -/
def Reader.unread (r : Reader) : Str := r.s.drop r.i

/-- Reading `n` bytes moves the offset, at most to the end. -/
def Reader.advance (n : Nat) (r : Reader) : Reader := { r with i := min (r.i + n) r.s.length }

/-- A body stream (`io.ReadCloser`): the bytes still to be delivered, the error the
stream raises after them (`none`: end of file), and how often `Close` was called. -/
structure Body where
  data : Str
  fail : Option Error
  closed : Nat
  deriving DecidableEq, Repr

/-- The call `ioutil.ReadAll(b)`: drains the stream; the end of file is not an error. -/
def ReadAll (b : Body) : (Str × Option Error) × Body :=
  ((b.data, b.fail), { b with data := [] })

/-- The method `Close` of a body stream. -/
def Body.Close (b : Body) : Body := { b with closed := b.closed + 1 }

/-- The type `Response`, wrapping `*http.Response`. -/
structure Response where
  StatusCode : Nat
  Header : Header
  Body : Body
  deriving DecidableEq, Repr

/-! ## The client -/

/-- The type `http.Request`, as `NewRequest` fills it: `Body` is the text the body
reader will deliver to the transport. -/
structure Request where
  Method : Str
  URL : URL
  Header : Header
  Body : Str
  ContentLength : Nat
  deriving DecidableEq, Repr

/-- What the program is run against: the URL syntax checks of `net/url` and the
transport `http.Client.Do`, which answers a request in a state of the world with a
response or an error, and reports how many bytes of the request body it read. -/
structure Env (σ : Type) where
  okHier : Str → Bool
  okFragment : Str → Bool
  Do : Request → σ → (Except Error Response × Nat) × σ

/-- The type `Client`; the embedded `*http.Client` is the `Do` of the environment.
The field `body` is an `io.Reader`: `nil`, or the reader `WithBody` made. -/
structure Client where
  headers : Header
  query : Values
  body : Option Reader
  deriving DecidableEq, Repr

/-- The constructor `New`. -/
def New : Client := { headers := [], query := [], body := none }

/-- The method `WithHeaders`: `range` visits the entries of the argument in some
order, here the order of the list. -/
def Client.WithHeaders (c : Client) (headers : GoMap Str) : Client :=
  headers.foldl (fun c kv => { c with headers := Header.Set c.headers kv.1 kv.2 }) c

/-- The method `WithQuery`. -/
def Client.WithQuery (c : Client) (query : GoMap Str) : Client :=
  query.foldl (fun c kv => { c with query := Values.Set c.query kv.1 kv.2 }) c

/-- The method `WithBody`. -/
def Client.WithBody (c : Client) (body : Str) : Client :=
  { c with body := some (NewReader body) }

/-- The test `validMethod`: a non-empty token. -/
def validMethod (method : Str) : Bool :=
  decide (method.length > 0) && method.all isTokenByte

/-- The function `http.NewRequest(method, url, body)` for a `nil` or `*bytes.Reader`
body: an empty method means GET, the method must be a token, the URL must parse; the
content length is the reader's `Len()`. -/
def NewRequest {σ : Type} (env : Env σ) (method url : Str) (body : Option Reader) :
    Except Error Request :=
  let method := if method = [] then "GET".toList else method
  if !validMethod method then .error (.msg "net/http: invalid method")
  else
    match urlParse env.okHier env.okFragment url with
    | .error err => .error err
    | .ok u =>
      .ok { Method := method, URL := u, Header := [],
            Body := match body with
              | none => []
              | some r => r.unread,
            ContentLength := match body with
              | none => 0
              | some r => r.Len }

/-- The first half of `do`, up to `req.Header = c.headers`: the request that is handed
to the transport.  The URL is parsed, its query replaced by the encoded query of the
client, and the request made from the method, the text of that URL and the body. -/
def Client.request {σ : Type} (env : Env σ) (c : Client) (method uri : Str) :
    Except Error Request :=
  match urlParse env.okHier env.okFragment uri with
  | .error err => .error (.wrap "failed to parse URL" err)
  | .ok u =>
    let u := { u with RawQuery := Values.Encode c.query }
    match NewRequest env method u.String c.body with
    | .error err => .error (.wrap "failed to create request" err)
    | .ok req => .ok { req with Header := c.headers }

/-- The method `do`.  The transport reads the request body from the client's own
reader, so the reader's offset moves by what the transport read. -/
def Client.do {σ : Type} (env : Env σ) (c : Client) (method uri : Str) (w : σ) :
    Except Error Response × Client × σ :=
  match Client.request env c method uri with
  | .error err => (.error err, c, w)
  | .ok req =>
    let out := env.Do req w
    let c := { c with body := c.body.map (Reader.advance out.1.2) }
    match out.1.1 with
    | .error err => (.error (.wrap "failed to execute request" err), c, out.2)
    | .ok resp => (.ok resp, c, out.2)

/-- The method `Get`. -/
def Client.Get {σ : Type} (env : Env σ) (c : Client) (url : Str) (w : σ) :=
  Client.do env c "GET".toList url w

/-- The method `Post`. -/
def Client.Post {σ : Type} (env : Env σ) (c : Client) (url : Str) (w : σ) :=
  Client.do env c "POST".toList url w

/-- The method `Put`. -/
def Client.Put {σ : Type} (env : Env σ) (c : Client) (url : Str) (w : σ) :=
  Client.do env c "PUT".toList url w

/-- The method `Patch`. -/
def Client.Patch {σ : Type} (env : Env σ) (c : Client) (url : Str) (w : σ) :=
  Client.do env c "PATCH".toList url w

/-- The method `Delete`. -/
def Client.Delete {σ : Type} (env : Env σ) (c : Client) (url : Str) (w : σ) :=
  Client.do env c "DELETE".toList url w

/-! ## `DoAll` -/

/-- The sequential loop of `DoAll` (`concurrent == false`): the first failing dispatch
returns `nil` and its error, otherwise the response is appended.  (The line the loop
prints to the standard output on a failure is not part of the model.) -/
def doAllSeq {σ : Type} (env : Env σ) (method : Str) :
    List Str → List Response → Client → σ → (List Response × Option Error) × Client × σ
  | [], responses, c, w => ((responses, none), c, w)
  | url :: urls, responses, c, w =>
    match Client.do env c method url w with
    | (.error err, c', w') => (([], some err), c', w')
    | (.ok resp, c', w') => doAllSeq env method urls (responses ++ [resp]) c' w'

/-- The goroutine `go func(url string)` of the concurrent branch, by what it does
next: dispatch its URL; read the shared variable `responses`; write
`append(responses, resp)` back to it; or nothing more (`wg.Done()`). -/
inductive Goroutine where
  | dispatch (url : Str)
  | load (resp : Response)
  | store (resp : Response) (seen : List Response)
  | done
  deriving DecidableEq, Repr

/-- The state of the concurrent branch: the goroutines, the shared variable
`responses`, the shared client and the world. -/
structure Fanout (σ : Type) where
  goroutines : List Goroutine
  responses : List Response
  client : Client
  world : σ

/-- One action of goroutine `i`.  A dispatch is taken as one action.  The statement
`responses = append(responses, resp)` is not guarded by a lock or sent through a
channel: it reads the shared variable, and later writes the extended slice to it. -/
def Fanout.step {σ : Type} (env : Env σ) (method : Str) (s : Fanout σ) (i : Nat) : Fanout σ :=
  match s.goroutines.get? i with
  | none => s
  | some (.dispatch url) =>
    match Client.do env s.client method url s.world with
    | (.error _, c', w') =>
      { s with goroutines := s.goroutines.set i .done, client := c', world := w' }
    | (.ok resp, c', w') =>
      { s with goroutines := s.goroutines.set i (.load resp), client := c', world := w' }
  | some (.load resp) =>
    { s with goroutines := s.goroutines.set i (.store resp s.responses) }
  | some (.store resp seen) =>
    { s with goroutines := s.goroutines.set i .done, responses := seen ++ [resp] }
  | some .done => s

/-- The schedule that lets every goroutine run to its end, one after the other. -/
def finish (n : Nat) : List Nat := (List.range n).flatMap (fun i => [i, i, i])

/-- The concurrent branch of `DoAll`: the goroutines are started, act in the order the
scheduler picks (`sched`, a list of goroutine numbers), and `wg.Wait()` returns once
all of them are done. -/
def doAllConcurrent {σ : Type} (env : Env σ) (sched : List Nat) (method : Str)
    (urls : List Str) (c : Client) (w : σ) : Fanout σ :=
  (sched ++ finish urls.length).foldl (Fanout.step env method)
    { goroutines := urls.map Goroutine.dispatch, responses := [], client := c, world := w }

/-- The method `DoAll`. -/
def Client.DoAll {σ : Type} (env : Env σ) (sched : List Nat) (c : Client) (method : Str)
    (urls : List Str) (concurrent : Bool) (w : σ) :
    (List Response × Option Error) × Client × σ :=
  if concurrent then
    let s := doAllConcurrent env sched method urls c w
    ((s.responses, none), s.client, s.world)
  else doAllSeq env method urls [] c w

/-! ## `net/url`: `ParseQuery` -/

/-- The test `ishex`. -/
def ishex (c : Char) : Bool :=
  c.isDigit || (decide ('a'.toNat ≤ c.toNat) && decide (c.toNat ≤ 'f'.toNat)) ||
    (decide ('A'.toNat ≤ c.toNat) && decide (c.toNat ≤ 'F'.toNat))

/-- The function `unhex`. -/
def unhex (c : Char) : Nat :=
  if c.isDigit then c.toNat - '0'.toNat
  else if decide ('a'.toNat ≤ c.toNat) && decide (c.toNat ≤ 'f'.toNat) then c.toNat - 'a'.toNat + 10
  else if decide ('A'.toNat ≤ c.toNat) && decide (c.toNat ≤ 'F'.toNat) then c.toNat - 'A'.toNat + 10
  else 0

/-- The function `url.QueryUnescape`: `%XX` is the byte `XX`, `+` is a space; a `%`
not followed by two hex digits is an `EscapeError`. -/
def QueryUnescape : Str → Except Error Str
  | [] => .ok []
  | '%' :: a :: b :: rest =>
    if ishex a && ishex b then
      match QueryUnescape rest with
      | .ok t => .ok (Char.ofNat (unhex a * 16 + unhex b) :: t)
      | .error e => .error e
    else .error (.msg "invalid URL escape")
  | '%' :: _ => .error (.msg "invalid URL escape")
  | '+' :: rest =>
    match QueryUnescape rest with
    | .ok t => .ok (' ' :: t)
    | .error e => .error e
  | c :: rest =>
    match QueryUnescape rest with
    | .ok t => .ok (c :: t)
    | .error e => .error e

/-- The segments between the occurrences of a separator byte, from left to right. -/
def splitOn (sep : Char) : Str → List Str
  | [] => [[]]
  | c :: cs =>
    if c = sep then [] :: splitOn sep cs
    else
      match splitOn sep cs with
      | [] => [[c]]
      | seg :: segs => (c :: seg) :: segs

/-- The loop of `parseQuery`, which cuts the query at each `&`: a segment with a `;`
sets the error, an empty one is skipped, the others are cut at the first `=`, both
halves unescaped, and the value appended to the values of the key.  The first
unescape error is kept; parsing goes on after an error. -/
def parseQuery : Values → Option Error → List Str → Values × Option Error
  | m, err, [] => (m, err)
  | m, err, key :: query =>
    if key.contains ';' then
      parseQuery m (some (.msg "invalid semicolon separator in query")) query
    else if key = [] then parseQuery m err query
    else
      match QueryUnescape (cut '=' key).1 with
      | .error err1 => parseQuery m (if err.isNone then some err1 else err) query
      | .ok k =>
        match QueryUnescape (cut '=' key).2.1 with
        | .error err1 => parseQuery m (if err.isNone then some err1 else err) query
        | .ok value => parseQuery (GoMap.set m k ((GoMap.get m k).getD [] ++ [value])) err query

/-- The function `url.ParseQuery`. -/
def ParseQuery (query : Str) : Values × Option Error :=
  parseQuery [] none (splitOn '&' query)

/-! ## `BodyMap`

`BodyMap` is not well-typed Go.  Its parameter is declared `result *any` (line 132),
and the function then uses `result` as a `map[string]interface{}`: it assigns
`make(map[string]interface{})` to it (lines 151, 156, 159, 162, 165), indexes it with
a string (lines 153, 157, 160, 163, 166) and returns it as the mapping (line 169).
None of these statements type-checks, and the embedding gives them no meaning: a path
that reaches one of them ends there, with the outcome `illTyped` and the line.  The
statements before them (the read, the three error returns, the `Content-Type` switch,
the calls of `json.Unmarshal` and `url.ParseQuery`) are well-typed and are translated
as they stand. -/

/-- A Go value held in an `interface{}`, for the values of a `map[string]interface{}`. -/
inductive Value where
  | null
  | bool (b : Bool)
  | number (literal : Str)
  | string (s : Str)
  | array (items : List Value)
  | object (fields : List (Str × Value))

/-- How a call of `BodyMap` ends.  `returned`: a return statement is reached, with its
two values (`none` is `nil`) and the response as the call leaves it.  `illTyped`: the
path reaches, at the given line, a statement that uses `result *any` as a map; `body`
is the text read so far and `response` the response at that point. -/
inductive Outcome where
  | returned (result : Option (GoMap Value)) (err : Option Error) (response : Response)
  | illTyped (line : Nat) (body : Str) (response : Response)

/-- The response, with its body stream, as a call of `BodyMap` leaves it. -/
def Outcome.response : Outcome → Response
  | .returned _ _ r => r
  | .illTyped _ _ r => r

/-- The method `BodyMap`.  The argument `result` is the pointer the caller passes, of
any kind `ρ`; the function hands it only to `json.Unmarshal(body, &result)`, a
well-typed call of which the function observes the error (`Unmarshal`, `none` for
`nil`).  The lines: 133-136 the read and its error return; 138-140 the switch on the
exact header value; 142-145 the JSON branch, which falls through to `return result, nil`
at line 169; 147-150 the form branch up to `result = make(...)` at line 151; 156, 159,
162 and 165 the first statement of the three text branches and of the default branch. -/
def Response.BodyMap {ρ : Type} (Unmarshal : Str → ρ → Option Error) (r : Response)
    (result : ρ) : Outcome :=
  let read := ReadAll r.Body
  let r := { r with Body := read.2 }
  let body := read.1.1
  match read.1.2 with
  | some err => .returned none (some err) r
  | none =>
    let contentType := r.Header.Get "Content-Type".toList
    if contentType = "application/json".toList then
      match Unmarshal body result with
      | some err => .returned none (some err) r
      | none => .illTyped 169 body r
    else if contentType = "application/x-www-form-urlencoded".toList then
      match (ParseQuery body).2 with
      | some err => .returned none (some err) r
      | none => .illTyped 151 body r
    else if contentType = "text/plain".toList then .illTyped 156 body r
    else if contentType = "text/html".toList then .illTyped 159 body r
    else if contentType = "text/xml".toList then .illTyped 162 body r
    else .illTyped 165 body r

/-! ## Reference notions for the theorems

What the properties are stated against: the results of the dispatches one by one, the
pairs a form body gives, the branch lines of `BodyMap`, the canonical keys of a header
mapping, and the parts of a URL text. -/

/-- The results of dispatching the URLs one after the other, each in the state the
previous dispatch left: the reference against which `DoAll` is compared. -/
def outcomes {σ : Type} (env : Env σ) (method : Str) :
    List Str → Client → σ → List (Except Error Response)
  | [], _, _ => []
  | url :: urls, c, w =>
    (Client.do env c method url w).1 ::
      outcomes env method urls (Client.do env c method url w).2.1 (Client.do env c method url w).2.2

/-- The responses among the results of the dispatches, in order. -/
def successes : List (Except Error Response) → List Response
  | [] => []
  | .ok resp :: rest => resp :: successes rest
  | .error _ :: rest => successes rest

/-- One `key=value` segment of a form, decoded; `none` when it is malformed. -/
def decodePair (seg : Str) : Option (Str × Str) :=
  if seg.contains ';' then none
  else
    match QueryUnescape (cut '=' seg).1, QueryUnescape (cut '=' seg).2.1 with
    | .ok k, .ok v => some (k, v)
    | _, _ => none

/-- The decoded pairs of the non-empty segments, in the order they are written;
`none` when a segment is malformed. -/
def pairsOf : List Str → Option (List (Str × Str))
  | [] => some []
  | seg :: segs =>
    if seg = [] then pairsOf segs
    else
      match decodePair seg with
      | none => none
      | some p => (pairsOf segs).map (fun ps => p :: ps)

/-- The key/value pairs a URL-encoded form body gives, in the order of the body;
`none` when the encoding is malformed. -/
def formPairs (body : Str) : Option (List (Str × Str)) := pairsOf (splitOn '&' body)

/-- The values given for a key, in the order of the pairs. -/
def valuesOf (pairs : List (Str × Str)) (k : Str) : List Str :=
  (pairs.filter (fun p => p.1 = k)).map Prod.snd

/-- The line of the first statement of the branch `BodyMap` takes for a content type
that is neither JSON nor form: `text/plain`, `text/html`, `text/xml`, or the default. -/
def rawLine (contentType : Str) : Nat :=
  if contentType = "text/plain".toList then 156
  else if contentType = "text/html".toList then 159
  else if contentType = "text/xml".toList then 162
  else 165

/-- The canonical forms of the keys of a mapping, in the order of its entries. -/
def canonKeys (H : GoMap Str) : List Str := H.map (fun kv => CanonicalMIMEHeaderKey kv.1)

/-- The query `url.Parse` reads from the text before the fragment. -/
def queryOf (u : Str) : Str :=
  if ((u.getLast? == some '?') && (u.count '?' == 1)) = true then [] else (cut '?' u).2.1

/-- The text before the query that `url.Parse` reads from the text before the fragment. -/
def hierOf (u : Str) : Str :=
  if ((u.getLast? == some '?') && (u.count '?' == 1)) = true then u.dropLast else (cut '?' u).1

/-- Texts joined by `&`. -/
def joinAmp : List Str → Str
  | [] => []
  | [x] => x
  | x :: y :: rest => x ++ '&' :: joinAmp (y :: rest)

/-- The value a sequence of `WithQuery` calls leaves for a key: that of the last entry
visited with this key (`none` when no call names the key). -/
def lastValue (qs : List (GoMap Str)) (k : Str) : Option Str :=
  List.lookup k qs.flatten.reverse

/-! ## Example environment -/

/-- A transport for the examples: it records each request it is given, refuses the
host `u2`, and answers any other request with status 200 and a `text/plain` body that
names the URL; as a transport does, it reads the whole request body. -/
def recordingEnv : Env (List Request) where
  okHier := fun _ => true
  okFragment := fun _ => true
  Do := fun req log =>
    ((if req.URL.hier = "http://u2".toList then .error (.msg "connection refused")
      else .ok { StatusCode := 200,
                 Header := [("Content-Type".toList, ["text/plain".toList])],
                 Body := { data := req.URL.hier, fail := none, closed := 0 } },
      req.ContentLength), log ++ [req])

/-- The response of `recordingEnv` to a request for the given URL. -/
def answer (url : String) : Response :=
  { StatusCode := 200, Header := [("Content-Type".toList, ["text/plain".toList])],
    Body := { data := url.toList, fail := none, closed := 0 } }

/-- A response with the given content type and body, unread and not closed. -/
def responseOf (contentType body : String) : Response :=
  { StatusCode := 200, Header := [("Content-Type".toList, [contentType.toList])],
    Body := { data := body.toList, fail := none, closed := 0 } }

/-- The response a call of `BodyMap` leaves: the given one with its stream drained. -/
def drained (r : Response) : Response := { r with Body := { r.Body with data := [] } }

/-- An `Unmarshal` for the examples: it reports no error.  It stands in where the call
is not reached, and for the text `{"a":1}`, which `json.Unmarshal` accepts. -/
def acceptAll (_ : Str) (_ : Unit) : Option Error := none

/-! # Theorems -/

/-! ## Go maps -/

theorem GoMap.get_set {V : Type} (m : GoMap V) (k k' : Str) (v : V) :
    GoMap.get (GoMap.set m k v) k' = if k = k' then some v else GoMap.get m k' := by
  induction m with
  | nil => simp [GoMap.set, GoMap.get]
  | cons kv rest ih =>
    obtain ⟨k0, v0⟩ := kv
    by_cases h : k0 = k
    · subst h
      by_cases h' : k0 = k' <;> simp [GoMap.set, GoMap.get, h']
    · by_cases h' : k0 = k'
      · subst h'
        have : ¬ k = k0 := fun e => h e.symm
        simp [GoMap.set, GoMap.get, h, this]
      · simp [GoMap.set, GoMap.get, h, h', ih]

theorem GoMap.keys_cons {V : Type} (k : Str) (v : V) (m : GoMap V) :
    GoMap.keys ((k, v) :: m) = k :: GoMap.keys m := rfl

theorem GoMap.mem_keys_set {V : Type} (m : GoMap V) (k k' : Str) (v : V) :
    k' ∈ GoMap.keys (GoMap.set m k v) ↔ k' = k ∨ k' ∈ GoMap.keys m := by
  induction m with
  | nil => simp only [GoMap.set, GoMap.keys, List.map_cons, List.map_nil, List.mem_singleton,
      List.not_mem_nil, or_false]
  | cons kv0 rest ih =>
    obtain ⟨k0, v0⟩ := kv0
    by_cases h : k0 = k
    · subst h
      simp only [GoMap.set, if_true, GoMap.keys_cons, List.mem_cons]
      tauto
    · simp only [GoMap.set, h, if_false, GoMap.keys_cons, List.mem_cons, ih]
      tauto

theorem GoMap.nodup_keys_set {V : Type} (m : GoMap V) (k : Str) (v : V)
    (h : (GoMap.keys m).Nodup) : (GoMap.keys (GoMap.set m k v)).Nodup := by
  induction m with
  | nil => simp only [GoMap.set, GoMap.keys, List.map_cons, List.map_nil, List.nodup_cons,
      List.not_mem_nil, not_false_eq_true, List.nodup_nil, and_self]
  | cons kv0 rest ih =>
    obtain ⟨k0, v0⟩ := kv0
    simp only [GoMap.keys_cons, List.nodup_cons] at h
    by_cases hk : k0 = k
    · subst hk
      simp only [GoMap.set, if_true, GoMap.keys_cons, List.nodup_cons]
      exact h
    · simp only [GoMap.set, hk, if_false, GoMap.keys_cons, List.nodup_cons]
      refine ⟨?_, ih h.2⟩
      intro hmem
      rcases (GoMap.mem_keys_set rest k k0 v).1 hmem with h1 | h1
      · exact hk h1
      · exact h.1 h1

theorem GoMap.get_eq_none {V : Type} (m : GoMap V) (k : Str) :
    GoMap.get m k = none ↔ k ∉ GoMap.keys m := by
  induction m with
  | nil => simp only [GoMap.get, GoMap.keys, List.map_nil, List.not_mem_nil, not_false_eq_true]
  | cons kv0 rest ih =>
    obtain ⟨k0, v0⟩ := kv0
    by_cases h : k0 = k
    · subst h
      simp only [GoMap.get, if_true, GoMap.keys_cons, List.mem_cons, true_or, not_true_eq_false]
      simp
    · have h' : ¬ k = k0 := fun e => h e.symm
      simp only [GoMap.get, h, if_false, GoMap.keys_cons, List.mem_cons, h', false_or, ih]

/-! ## Sequential fan-out -/

theorem outcomes_length {σ : Type} (env : Env σ) (method : Str) (urls : List Str) :
    ∀ (c : Client) (w : σ), (outcomes env method urls c w).length = urls.length := by
  induction urls with
  | nil => intro c w; rfl
  | cons u us ih => intro c w; simp [outcomes, ih]

theorem doAllSeq_all_ok {σ : Type} (env : Env σ) (method : Str) (urls : List Str) :
    ∀ (acc : List Response) (c : Client) (w : σ) (rs : List Response),
      outcomes env method urls c w = rs.map Except.ok →
      (doAllSeq env method urls acc c w).1 = (acc ++ rs, none) := by
  induction urls with
  | nil =>
    intro acc c w rs h
    cases rs with
    | nil => simp [doAllSeq]
    | cons r rs => simp [outcomes] at h
  | cons u us ih =>
    intro acc c w rs h
    cases rs with
    | nil => simp [outcomes] at h
    | cons r rs =>
      simp only [outcomes, List.map_cons, List.cons.injEq] at h
      obtain ⟨h1, h2⟩ := h
      rcases hd : Client.do env c method u w with ⟨res, c', w'⟩
      rw [hd] at h1 h2
      simp only at h1 h2
      subst h1
      simp only [doAllSeq, hd]
      rw [ih (acc ++ [r]) c' w' rs h2]
      simp

theorem doAllSeq_first_error {σ : Type} (env : Env σ) (method : Str) (urls : List Str) :
    ∀ (acc : List Response) (c : Client) (w : σ) (rs : List Response) (e : Error)
      (rest : List (Except Error Response)),
      outcomes env method urls c w = rs.map Except.ok ++ Except.error e :: rest →
      (doAllSeq env method urls acc c w).1 = ([], some e) := by
  induction urls with
  | nil =>
    intro acc c w rs e rest h
    cases rs <;> simp [outcomes] at h
  | cons u us ih =>
    intro acc c w rs e rest h
    rcases hd : Client.do env c method u w with ⟨res, c', w'⟩
    cases rs with
    | nil =>
      simp only [outcomes, List.map_nil, List.nil_append, List.cons.injEq] at h
      rw [hd] at h
      simp only at h
      obtain ⟨h1, -⟩ := h
      subst h1
      simp only [doAllSeq, hd]
    | cons r rs =>
      simp only [outcomes, List.map_cons, List.cons_append, List.cons.injEq] at h
      rw [hd] at h
      simp only at h
      obtain ⟨h1, h2⟩ := h
      subst h1
      simp only [doAllSeq, hd]
      exact ih (acc ++ [r]) c' w' rs e rest h2

/-- C1: sequential `DoAll` (`concurrent = false`) is a fail-fast mapping in input
order.  When every dispatch succeeds it returns the responses, one per URL and in the
order of the URLs, and no error; when the dispatches before some URL succeed and the
dispatch of that URL fails with `e`, it returns no response (`nil`) and the error `e`.
This holds for every method, URL list, client, transport and state of the world. -/
theorem sequential_DoAll_fail_fast {σ : Type} (env : Env σ) (sched : List Nat) (c : Client)
    (method : Str) (urls : List Str) (w : σ) :
    (∀ rs : List Response, outcomes env method urls c w = rs.map Except.ok →
        (Client.DoAll env sched c method urls false w).1 = (rs, none) ∧
          rs.length = urls.length) ∧
      (∀ (rs : List Response) (e : Error) (rest : List (Except Error Response)),
        outcomes env method urls c w = rs.map Except.ok ++ Except.error e :: rest →
        (Client.DoAll env sched c method urls false w).1 = ([], some e)) := by
  refine ⟨fun rs h => ⟨?_, ?_⟩, fun rs e rest h => ?_⟩
  · have := doAllSeq_all_ok env method urls [] c w rs h
    simpa [Client.DoAll] using this
  · have := outcomes_length env method urls c w
    rw [h] at this
    simpa using this
  · have := doAllSeq_first_error env method urls [] c w rs e rest h
    simpa [Client.DoAll] using this

/-- C1, at the example of the specification: over `[u1, u2, u3]` where `u2` fails, the
sequential fan-out returns no response and the error of `u2`. -/
theorem sequential_DoAll_fail_fast_example :
    (Client.DoAll recordingEnv [] New "GET".toList
        ["http://u1".toList, "http://u2".toList, "http://u3".toList] false []).1 =
      ([], some (.wrap "failed to execute request" (.msg "connection refused"))) :=
  (sequential_DoAll_fail_fast recordingEnv [] New "GET".toList
      ["http://u1".toList, "http://u2".toList, "http://u3".toList] []).2
    [answer "http://u1"] (.wrap "failed to execute request" (.msg "connection refused"))
    [.ok (answer "http://u3")] rfl

/-! ## Concurrent fan-out -/

/-- C2, the failing run: two URLs, both dispatches succeed, and both goroutines read
the shared variable `responses` before either writes it.  The concurrent fan-out then
returns one response, not two: the response for `u1` is lost.  (When the goroutines run
one after the other, as in the last part, nothing is lost: over `[u1, u2, u3]` with `u2`
failing the two responses are returned, and no error.) -/
theorem concurrent_DoAll_loses_response :
    outcomes recordingEnv "GET".toList ["http://u1".toList, "http://u3".toList] New [] =
        [.ok (answer "http://u1"), .ok (answer "http://u3")] ∧
      (Client.DoAll recordingEnv [0, 1, 0, 1, 0, 1] New "GET".toList
        ["http://u1".toList, "http://u3".toList] true []).1 =
        ([answer "http://u3"], none) ∧
      (Client.DoAll recordingEnv [] New "GET".toList
        ["http://u1".toList, "http://u2".toList, "http://u3".toList] true []).1 =
        ([answer "http://u1", answer "http://u3"], none) :=
  ⟨rfl, rfl, rfl⟩

/-- The concurrent fan-out never reports an error. -/
theorem concurrent_DoAll_no_error {σ : Type} (env : Env σ) (sched : List Nat) (c : Client)
    (method : Str) (urls : List Str) (w : σ) :
    (Client.DoAll env sched c method urls true w).1.2 = none := rfl

/-! ## Concurrent fan-out without interleaving -/

theorem step_thrice {σ : Type} (env : Env σ) (method : Str) (s : Fanout σ)
    (pre post : List Goroutine) (url : Str)
    (hg : s.goroutines = pre ++ Goroutine.dispatch url :: post) :
    [pre.length, pre.length, pre.length].foldl (Fanout.step env method) s =
      { goroutines := (pre ++ [Goroutine.done]) ++ post,
        responses := s.responses ++
          successes [(Client.do env s.client method url s.world).1],
        client := (Client.do env s.client method url s.world).2.1,
        world := (Client.do env s.client method url s.world).2.2 } := by
  have hget : ∀ g, (pre ++ g :: post).get? pre.length = some g := by
    intro g
    rw [List.get?_eq_getElem?, List.getElem?_append_right (le_refl _)]
    simp
  have hset : ∀ g g', (pre ++ g :: post).set pre.length g' = pre ++ g' :: post := by
    intro g g'; simp
  rcases hd : Client.do env s.client method url s.world with ⟨res, c', w'⟩
  cases res with
  | error e =>
    simp only [List.foldl_cons, List.foldl_nil]
    have h1 : Fanout.step env method s pre.length =
        { s with goroutines := pre ++ Goroutine.done :: post, client := c', world := w' } := by
      unfold Fanout.step
      rw [hg, hget]
      simp only [hd, hset]
    rw [h1]
    have h2 : ∀ t : Fanout σ, t.goroutines = pre ++ Goroutine.done :: post →
        Fanout.step env method t pre.length = t := by
      intro t ht
      unfold Fanout.step
      rw [ht, hget]
    rw [h2 { s with goroutines := pre ++ Goroutine.done :: post, client := c', world := w' } rfl,
      h2 { s with goroutines := pre ++ Goroutine.done :: post, client := c', world := w' } rfl]
    simp [successes]
  | ok resp =>
    simp only [List.foldl_cons, List.foldl_nil]
    have h1 : Fanout.step env method s pre.length =
        { s with goroutines := pre ++ Goroutine.load resp :: post,
                 client := c', world := w' } := by
      unfold Fanout.step
      rw [hg, hget]
      simp only [hd, hset]
    rw [h1]
    have h2 : Fanout.step env method
        { s with goroutines := pre ++ Goroutine.load resp :: post,
                 client := c', world := w' } pre.length =
        { s with goroutines := pre ++ Goroutine.store resp s.responses :: post,
                 client := c', world := w' } := by
      unfold Fanout.step
      simp only [hget, hset]
    rw [h2]
    have h3 : Fanout.step env method
        { s with goroutines := pre ++ Goroutine.store resp s.responses :: post,
                 client := c', world := w' } pre.length =
        { goroutines := pre ++ Goroutine.done :: post, responses := s.responses ++ [resp],
          client := c', world := w' } := by
      unfold Fanout.step
      simp only [hget, hset]
    rw [h3]
    simp [successes]

theorem serial_run {σ : Type} (env : Env σ) (method : Str) (urls : List Str) :
    ∀ (pre : List Goroutine) (s : Fanout σ),
      s.goroutines = pre ++ urls.map Goroutine.dispatch →
      (((List.range' pre.length urls.length).flatMap (fun i => [i, i, i])).foldl
          (Fanout.step env method) s).responses =
        s.responses ++ successes (outcomes env method urls s.client s.world) := by
  induction urls with
  | nil => intro pre s _; simp [successes, outcomes]
  | cons u us ih =>
    intro pre s hg
    rw [List.length_cons, List.range'_succ, List.flatMap_cons, List.foldl_append,
      step_thrice env method s pre (us.map Goroutine.dispatch) u hg]
    have := ih (pre ++ [Goroutine.done])
      { goroutines := (pre ++ [Goroutine.done]) ++ us.map Goroutine.dispatch,
        responses := s.responses ++ successes [(Client.do env s.client method u s.world).1],
        client := (Client.do env s.client method u s.world).2.1,
        world := (Client.do env s.client method u s.world).2.2 } rfl
    simp only [List.length_append, List.length_singleton] at this
    rw [this]
    simp only [outcomes]
    cases (Client.do env s.client method u s.world).1 <;> simp [successes]

/-- When the goroutines of the concurrent fan-out run one after the other (the
scheduler interleaves nothing), it returns exactly the responses of the URLs whose
dispatch succeeded, and no error. -/
theorem concurrent_DoAll_serial {σ : Type} (env : Env σ) (c : Client) (method : Str)
    (urls : List Str) (w : σ) :
    (Client.DoAll env [] c method urls true w).1 =
      (successes (outcomes env method urls c w), none) := by
  have := serial_run env method urls []
    { goroutines := urls.map Goroutine.dispatch, responses := [], client := c, world := w } rfl
  simp only [List.length_nil, List.nil_append] at this
  simp only [Client.DoAll, doAllConcurrent, finish, List.nil_append, if_true]
  rw [List.range_eq_range', this]

/-! ## The request body across dispatches -/

/-- A dispatch leaves the headers and the query of the client as they are; of the body
reader it moves the offset, by what the transport read. -/
theorem do_frame {σ : Type} (env : Env σ) (c : Client) (method uri : Str) (w : σ) :
    (Client.do env c method uri w).2.1.headers = c.headers ∧
      (Client.do env c method uri w).2.1.query = c.query ∧
      ((Client.do env c method uri w).2.1.body = c.body ∨
        ∃ n, (Client.do env c method uri w).2.1.body = c.body.map (Reader.advance n)) := by
  unfold Client.do
  cases Client.request env c method uri with
  | error e => exact ⟨rfl, rfl, Or.inl rfl⟩
  | ok req =>
    simp only
    cases (env.Do req w).1.1 with
    | error e => exact ⟨rfl, rfl, Or.inr ⟨_, rfl⟩⟩
    | ok resp => exact ⟨rfl, rfl, Or.inr ⟨_, rfl⟩⟩

/-- C8, the failing run: a client with the body `payload` dispatched sequentially to two
URLs that both succeed.  The first request carries `payload`, the second carries an
empty body, and after one dispatch the client's body reader has nothing left to read. -/
theorem body_drained_by_first_dispatch :
    ((Client.DoAll recordingEnv [] (New.WithBody "payload".toList) "POST".toList
        ["http://u1".toList, "http://u3".toList] false []).1 =
        ([answer "http://u1", answer "http://u3"], none)) ∧
      ((Client.DoAll recordingEnv [] (New.WithBody "payload".toList) "POST".toList
        ["http://u1".toList, "http://u3".toList] false []).2.2.map Request.Body =
        ["payload".toList, []]) ∧
      ((New.WithBody "payload".toList).body.map Reader.unread = some "payload".toList) ∧
      ((Client.do recordingEnv (New.WithBody "payload".toList) "POST".toList
        "http://u1".toList []).2.1.body.map Reader.unread = some []) := by
  decide

/-! ## Form decoding -/

theorem parseQuery_error_kept (segs : List Str) :
    ∀ (m : Values) (err : Option Error), err ≠ none → (parseQuery m err segs).2 ≠ none := by
  induction segs with
  | nil => intro m err h; exact h
  | cons seg segs ih =>
    intro m err h
    have hkeep : ∀ e1 : Error, (if err.isNone = true then some e1 else err) ≠ none := by
      intro e1
      cases err with
      | none => exact absurd rfl h
      | some e => simp
    unfold parseQuery
    by_cases hsemi : seg.contains ';' = true
    · rw [if_pos hsemi]; exact ih m _ (by simp)
    · rw [if_neg hsemi]
      by_cases hnil : seg = []
      · rw [if_pos hnil]; exact ih m _ h
      · rw [if_neg hnil]
        cases hk : QueryUnescape (cut '=' seg).1 with
        | error e => exact ih m _ (hkeep e)
        | ok k =>
          cases hv : QueryUnescape (cut '=' seg).2.1 with
          | error e => exact ih m _ (hkeep e)
          | ok value => exact ih _ _ h

theorem decodePair_eq (seg : Str) (hsemi : ¬ seg.contains ';' = true) (k value : Str)
    (hk : QueryUnescape (cut '=' seg).1 = .ok k)
    (hv : QueryUnescape (cut '=' seg).2.1 = .ok value) : decodePair seg = some (k, value) := by
  unfold decodePair
  rw [if_neg hsemi, hk, hv]

theorem decodePair_semi (seg : Str) (hsemi : seg.contains ';' = true) :
    decodePair seg = none := by
  unfold decodePair
  rw [if_pos hsemi]

theorem decodePair_key_error (seg : Str) (e : Error)
    (hk : QueryUnescape (cut '=' seg).1 = .error e) : decodePair seg = none := by
  unfold decodePair
  rw [hk]
  split <;> rfl

theorem decodePair_value_error (seg : Str) (e : Error)
    (hv : QueryUnescape (cut '=' seg).2.1 = .error e) : decodePair seg = none := by
  unfold decodePair
  rw [hv]
  split
  · rfl
  · cases QueryUnescape (cut '=' seg).1 <;> rfl

theorem parseQuery_malformed (segs : List Str) :
    ∀ (m : Values) (err : Option Error), pairsOf segs = none →
      (parseQuery m err segs).2 ≠ none := by
  induction segs with
  | nil => intro m err h; simp [pairsOf] at h
  | cons seg segs ih =>
    intro m err h
    have hfirst : ∀ e1 : Error, (if err.isNone = true then some e1 else err) ≠ none := by
      intro e1
      cases err <;> simp
    unfold parseQuery
    unfold pairsOf at h
    by_cases hsemi : seg.contains ';' = true
    · rw [if_pos hsemi]; exact parseQuery_error_kept segs m _ (by simp)
    · rw [if_neg hsemi]
      by_cases hnil : seg = []
      · rw [if_pos hnil] at h ⊢; exact ih m err h
      · rw [if_neg hnil] at h ⊢
        cases hk : QueryUnescape (cut '=' seg).1 with
        | error e => exact parseQuery_error_kept segs m _ (hfirst e)
        | ok k =>
          cases hv : QueryUnescape (cut '=' seg).2.1 with
          | error e => exact parseQuery_error_kept segs m _ (hfirst e)
          | ok value =>
            rw [decodePair_eq seg hsemi k value hk hv] at h
            simp only [Option.map_eq_none'] at h
            exact ih _ err h

theorem valuesOf_cons (p : Str × Str) (ps : List (Str × Str)) (k : Str) :
    valuesOf (p :: ps) k = if p.1 = k then p.2 :: valuesOf ps k else valuesOf ps k := by
  by_cases h : p.1 = k <;> simp [valuesOf, List.filter_cons, h]

theorem parseQuery_wellformed (segs : List Str) :
    ∀ (m : Values) (err : Option Error) (pairs : List (Str × Str)),
      pairsOf segs = some pairs →
      (parseQuery m err segs).2 = err ∧
      ∀ k, GoMap.get (parseQuery m err segs).1 k =
        if valuesOf pairs k = [] then GoMap.get m k
        else some ((GoMap.get m k).getD [] ++ valuesOf pairs k) := by
  induction segs with
  | nil =>
    intro m err pairs h
    simp only [pairsOf, Option.some.injEq] at h
    subst h
    simp [parseQuery, valuesOf]
  | cons seg segs ih =>
    intro m err pairs h
    unfold parseQuery
    unfold pairsOf at h
    by_cases hnil : seg = []
    · subst hnil
      rw [if_pos rfl] at h
      simp only [List.contains_nil, Bool.false_eq_true, if_false, if_true]
      exact ih m err pairs h
    · rw [if_neg hnil] at h
      by_cases hsemi : seg.contains ';' = true
      · rw [decodePair_semi seg hsemi] at h
        exact absurd h (by simp)
      · rw [if_neg hsemi, if_neg hnil]
        cases hk : QueryUnescape (cut '=' seg).1 with
        | error e =>
          rw [decodePair_key_error seg e hk] at h
          exact absurd h (by simp)
        | ok k =>
          cases hv : QueryUnescape (cut '=' seg).2.1 with
          | error e =>
            rw [decodePair_value_error seg e hv] at h
            exact absurd h (by simp)
          | ok value =>
            rw [decodePair_eq seg hsemi k value hk hv] at h
            simp only [Option.map_eq_some'] at h
            obtain ⟨ps, hps, rfl⟩ := h
            simp only
            obtain ⟨h1, h2⟩ := ih (GoMap.set m k ((GoMap.get m k).getD [] ++ [value])) err ps hps
            refine ⟨h1, fun k' => ?_⟩
            rw [h2 k', GoMap.get_set, valuesOf_cons]
            by_cases hkk : k = k'
            · subst hkk
              by_cases hvs : valuesOf ps k = [] <;> simp [hvs]
            · simp [hkk]

/-! ## `BodyMap`, branch by branch -/

theorem BodyMap_read_error {ρ : Type} (Unmarshal : Str → ρ → Option Error) (r : Response)
    (result : ρ) (e : Error) (hfail : r.Body.fail = some e) :
    Response.BodyMap Unmarshal r result = .returned none (some e) (drained r) := by
  unfold Response.BodyMap
  simp only [ReadAll, hfail, drained]

theorem BodyMap_json {ρ : Type} (Unmarshal : Str → ρ → Option Error) (r : Response)
    (result : ρ) (hread : r.Body.fail = none)
    (hct : r.Header.Get "Content-Type".toList = "application/json".toList) :
    Response.BodyMap Unmarshal r result =
      match Unmarshal r.Body.data result with
      | some err => .returned none (some err) (drained r)
      | none => .illTyped 169 r.Body.data (drained r) := by
  unfold Response.BodyMap
  simp only [ReadAll, hread, hct, if_true, drained]

theorem BodyMap_form {ρ : Type} (Unmarshal : Str → ρ → Option Error) (r : Response)
    (result : ρ) (hread : r.Body.fail = none)
    (hct : r.Header.Get "Content-Type".toList = "application/x-www-form-urlencoded".toList) :
    Response.BodyMap Unmarshal r result =
      match (ParseQuery r.Body.data).2 with
      | some err => .returned none (some err) (drained r)
      | none => .illTyped 151 r.Body.data (drained r) := by
  have hne : ¬ ("application/x-www-form-urlencoded".toList = "application/json".toList) := by
    decide
  unfold Response.BodyMap
  simp only [ReadAll, hread, hct, hne, if_false, if_true, drained]

theorem BodyMap_raw {ρ : Type} (Unmarshal : Str → ρ → Option Error) (r : Response)
    (result : ρ) (hread : r.Body.fail = none)
    (hjson : r.Header.Get "Content-Type".toList ≠ "application/json".toList)
    (hform : r.Header.Get "Content-Type".toList ≠ "application/x-www-form-urlencoded".toList) :
    Response.BodyMap Unmarshal r result =
      .illTyped (rawLine (r.Header.Get "Content-Type".toList)) r.Body.data (drained r) := by
  unfold Response.BodyMap rawLine
  simp only [ReadAll, hread, hjson, hform, if_false, drained]
  split_ifs <;> rfl

theorem rawLine_mem (contentType : Str) : rawLine contentType ∈ [156, 159, 162, 165] := by
  unfold rawLine
  split_ifs <;> simp

theorem BodyMap_response {ρ : Type} (Unmarshal : Str → ρ → Option Error) (r : Response)
    (result : ρ) : (Response.BodyMap Unmarshal r result).response = drained r := by
  cases hf : r.Body.fail with
  | some e => rw [BodyMap_read_error Unmarshal r result e hf]; rfl
  | none =>
    by_cases hj : r.Header.Get "Content-Type".toList = "application/json".toList
    · rw [BodyMap_json Unmarshal r result hf hj]
      cases Unmarshal r.Body.data result <;> rfl
    · by_cases hform : r.Header.Get "Content-Type".toList =
          "application/x-www-form-urlencoded".toList
      · rw [BodyMap_form Unmarshal r result hf hform]
        cases (ParseQuery r.Body.data).2 <;> rfl
      · rw [BodyMap_raw Unmarshal r result hf hj hform]; rfl

/-! ## Form decoding: the mapping is not returned -/

/-- C3 fails on the code: a response declared `application/x-www-form-urlencoded` whose
body can be read.  If the body is a well-formed form, `BodyMap` does not return the
mapping the claim describes: the path ends at line 151, `result =
make(map[string]interface{})`, which assigns a map to `result *any` and does not
type-check.  (If the body is malformed, `BodyMap` returns no mapping and the error of
`url.ParseQuery`, as the claim says.) -/
theorem BodyMap_form_stops_at_line_151 {ρ : Type} (Unmarshal : Str → ρ → Option Error)
    (r : Response) (result : ρ) (hread : r.Body.fail = none)
    (hct : r.Header.Get "Content-Type".toList = "application/x-www-form-urlencoded".toList) :
    (∀ pairs, formPairs r.Body.data = some pairs →
      Response.BodyMap Unmarshal r result = .illTyped 151 r.Body.data (drained r)) ∧
    (formPairs r.Body.data = none →
      ∃ e, Response.BodyMap Unmarshal r result = .returned none (some e) (drained r)) := by
  rw [BodyMap_form Unmarshal r result hread hct]
  constructor
  · intro pairs hp
    have herr : (ParseQuery r.Body.data).2 = none :=
      (parseQuery_wellformed (splitOn '&' r.Body.data) [] none pairs hp).1
    rw [herr]
  · intro hp
    have herr := parseQuery_malformed (splitOn '&' r.Body.data) [] none hp
    cases he : (ParseQuery r.Body.data).2 with
    | none => exact absurd he herr
    | some e => exact ⟨e, rfl⟩

/-- C3, the failing input of the specification: for the body `a=1&a=2&b=3` the call
ends at line 151 and returns no mapping. -/
theorem BodyMap_form_stops_at_line_151_example :
    Response.BodyMap acceptAll (responseOf "application/x-www-form-urlencoded" "a=1&a=2&b=3")
        () =
      .illTyped 151 "a=1&a=2&b=3".toList
        (drained (responseOf "application/x-www-form-urlencoded" "a=1&a=2&b=3")) :=
  (BodyMap_form_stops_at_line_151 acceptAll
    (responseOf "application/x-www-form-urlencoded" "a=1&a=2&b=3") () rfl (by decide)).1
    [("a".toList, "1".toList), ("a".toList, "2".toList), ("b".toList, "3".toList)] rfl

/-! ## Raw fallback and JSON: the mapping is not returned -/

/-- C4 fails on the code: a response whose body can be read and whose `Content-Type`
value is any text other than exactly `application/json` and exactly
`application/x-www-form-urlencoded`.  `BodyMap` does not return the mapping
`raw -> body`: the path ends at the first statement of the branch taken, `result =
make(map[string]interface{})` at line 156 (`text/plain`), 159 (`text/html`), 162
(`text/xml`) or 165 (any other value), which does not type-check for `result *any`. -/
theorem BodyMap_raw_stops_at_make {ρ : Type} (Unmarshal : Str → ρ → Option Error)
    (r : Response) (result : ρ) (hread : r.Body.fail = none)
    (hjson : r.Header.Get "Content-Type".toList ≠ "application/json".toList)
    (hform : r.Header.Get "Content-Type".toList ≠ "application/x-www-form-urlencoded".toList) :
    ∃ line, line ∈ [156, 159, 162, 165] ∧
      Response.BodyMap Unmarshal r result = .illTyped line r.Body.data (drained r) ∧
      (r.Header.Get "Content-Type".toList = "text/plain".toList → line = 156) :=
  ⟨rawLine (r.Header.Get "Content-Type".toList), rawLine_mem _,
    BodyMap_raw Unmarshal r result hread hjson hform,
    fun h => by rw [h]; rfl⟩

/-- C4, the failing input of the specification: `text/plain` with body `hello` ends at
line 156 and returns no mapping. -/
theorem BodyMap_raw_stops_at_make_example :
    ∃ line, line ∈ [156, 159, 162, 165] ∧
      Response.BodyMap acceptAll (responseOf "text/plain" "hello") () =
        .illTyped line "hello".toList (drained (responseOf "text/plain" "hello")) ∧
      ((responseOf "text/plain" "hello").Header.Get "Content-Type".toList =
        "text/plain".toList → line = 156) :=
  BodyMap_raw_stops_at_make acceptAll (responseOf "text/plain" "hello") () rfl
    (by decide) (by decide)

/-- C5 fails on the code: a response declared exactly `application/json` whose body can
be read.  Whenever `json.Unmarshal(body, &result)` accepts the body, `BodyMap` does not
return the parsed object: the path falls through the switch to line 169,
`return result, nil`, which returns `result *any` as a `map[string]interface{}` and
does not type-check; this is so whatever the caller passed as `result`.  (When
`json.Unmarshal` rejects the body with `e`, `BodyMap` returns no mapping and the
error `e`, as the claim says.) -/
theorem BodyMap_json_stops_at_line_169 {ρ : Type} (Unmarshal : Str → ρ → Option Error)
    (r : Response) (result : ρ) (hread : r.Body.fail = none)
    (hct : r.Header.Get "Content-Type".toList = "application/json".toList) :
    (Unmarshal r.Body.data result = none →
      Response.BodyMap Unmarshal r result = .illTyped 169 r.Body.data (drained r)) ∧
    (∀ e, Unmarshal r.Body.data result = some e →
      Response.BodyMap Unmarshal r result = .returned none (some e) (drained r)) := by
  rw [BodyMap_json Unmarshal r result hread hct]
  constructor
  · intro h; rw [h]
  · intro e h; rw [h]

/-- C5, the failing input of the specification: the body `{"a":1}`, which
`json.Unmarshal` accepts, ends at line 169 and returns no mapping. -/
theorem BodyMap_json_stops_at_line_169_example :
    Response.BodyMap acceptAll (responseOf "application/json" "\x7b\"a\":1\x7d") () =
      .illTyped 169 "\x7b\"a\":1\x7d".toList
        (drained (responseOf "application/json" "\x7b\"a\":1\x7d")) :=
  (BodyMap_json_stops_at_line_169 acceptAll
    (responseOf "application/json" "\x7b\"a\":1\x7d") () rfl (by decide)).1 rfl

/-! ## The body stream across `BodyMap` -/

/-- C7 as stated fails, on paths that hold no ill-typed statement.  A response whose
stream raises an error while it is read: `BodyMap` returns `nil` and that error
(lines 133-136), and the stream, closed 0 times before, has been closed 0 times after,
not once.  The same when `json.Unmarshal` rejects the body (lines 142-145). -/
theorem BodyMap_error_paths_leave_stream_unclosed :
    Response.BodyMap acceptAll
        { StatusCode := 200, Header := [("Content-Type".toList, ["text/plain".toList])],
          Body := { data := "hel".toList, fail := some (.msg "unexpected EOF"), closed := 0 } }
        () =
      .returned none (some (.msg "unexpected EOF"))
        { StatusCode := 200, Header := [("Content-Type".toList, ["text/plain".toList])],
          Body := { data := [], fail := some (.msg "unexpected EOF"), closed := 0 } } ∧
    Response.BodyMap (fun (_ : Str) (_ : Unit) => some (Error.msg "invalid character"))
        (responseOf "application/json" "oops") () =
      .returned none (some (.msg "invalid character"))
        { StatusCode := 200, Header := [("Content-Type".toList, ["application/json".toList])],
          Body := { data := [], fail := none, closed := 0 } } ∧
    (Response.BodyMap (fun (_ : Str) (_ : Unit) => some (Error.msg "invalid character"))
        (responseOf "application/json" "oops") ()).response.Body.closed ≠ 1 :=
  ⟨rfl, rfl, by decide⟩

/-- C7, amended: `BodyMap` never closes the body stream.  On every path (the read
fails, a parser rejects the body, or the statements that build the mapping are
reached) the stream is drained and has been closed as often after the call as before
it; and the call does return, with `nil` and the error, when the read fails and when
`json.Unmarshal` or `url.ParseQuery` rejects the body. -/
theorem BodyMap_never_closes {ρ : Type} (Unmarshal : Str → ρ → Option Error)
    (r : Response) (result : ρ) :
    (Response.BodyMap Unmarshal r result).response.Body.closed = r.Body.closed ∧
    (Response.BodyMap Unmarshal r result).response.Body.data = [] ∧
    (∀ e, r.Body.fail = some e →
      Response.BodyMap Unmarshal r result = .returned none (some e) (drained r)) ∧
    (∀ e, r.Body.fail = none →
      r.Header.Get "Content-Type".toList = "application/json".toList →
      Unmarshal r.Body.data result = some e →
      Response.BodyMap Unmarshal r result = .returned none (some e) (drained r)) ∧
    (∀ e, r.Body.fail = none →
      r.Header.Get "Content-Type".toList = "application/x-www-form-urlencoded".toList →
      (ParseQuery r.Body.data).2 = some e →
      Response.BodyMap Unmarshal r result = .returned none (some e) (drained r)) := by
  refine ⟨?_, ?_, fun e h => BodyMap_read_error Unmarshal r result e h, ?_, ?_⟩
  · rw [BodyMap_response]; rfl
  · rw [BodyMap_response]; rfl
  · intro e hread hct he
    rw [BodyMap_json Unmarshal r result hread hct, he]
  · intro e hread hct he
    rw [BodyMap_form Unmarshal r result hread hct, he]

/-- C6 as stated fails in what it says of the second call.  A `text/plain` response
with body `hello`: the first call reads `hello` and reaches line 156, where the mapping
would be built; a second call on the response the first one leaves does not fail with
a body-read error: its read yields the empty text and no error, and it reaches line
156 again, now with the empty text.  For a JSON response whose text `json.Unmarshal`
accepts, the second call returns the error of `json.Unmarshal` for the empty text,
not an error of the read. -/
theorem second_BodyMap_passes_the_read :
    Response.BodyMap acceptAll (responseOf "text/plain" "hello") () =
      .illTyped 156 "hello".toList (drained (responseOf "text/plain" "hello")) ∧
    (ReadAll (drained (responseOf "text/plain" "hello")).Body).1 = ([], none) ∧
    Response.BodyMap acceptAll (drained (responseOf "text/plain" "hello")) () =
      .illTyped 156 [] (drained (responseOf "text/plain" "hello")) ∧
    Response.BodyMap
        (fun (body : Str) (_ : Unit) =>
          if body = [] then some (Error.msg "unexpected end of JSON input") else none)
        (drained (responseOf "application/json" "\x7b\"a\":1\x7d")) () =
      .returned none (some (.msg "unexpected end of JSON input"))
        (drained (responseOf "application/json" "\x7b\"a\":1\x7d")) :=
  ⟨rfl, rfl, rfl, rfl⟩

/-- C6, amended: once a `BodyMap` call has read the body to its end (so the stream is
drained), a second `BodyMap` call on the same response does not fail with a body-read
error.  Its read yields the empty text and no error, and the call goes on with the
empty text: for JSON it returns the error of `json.Unmarshal` when that rejects the
empty text and else reaches line 169; for a form it reaches line 151; for any other
content type it reaches the first statement of its branch (line 156, 159, 162 or 165).
What a decode that gets that far returns is left open: those statements do not
type-check. -/
theorem second_BodyMap_reads_empty_text {ρ : Type} (Unmarshal : Str → ρ → Option Error)
    (r : Response) (result result2 : ρ) (hread : r.Body.fail = none) :
    (Response.BodyMap Unmarshal r result).response = drained r ∧
    (ReadAll (Response.BodyMap Unmarshal r result).response.Body).1 = ([], none) ∧
    Response.BodyMap Unmarshal (Response.BodyMap Unmarshal r result).response result2 =
      (if r.Header.Get "Content-Type".toList = "application/json".toList then
        match Unmarshal [] result2 with
        | some err => .returned none (some err) (drained r)
        | none => .illTyped 169 [] (drained r)
      else if r.Header.Get "Content-Type".toList =
          "application/x-www-form-urlencoded".toList then
        .illTyped 151 [] (drained r)
      else .illTyped (rawLine (r.Header.Get "Content-Type".toList)) [] (drained r)) := by
  have hresp := BodyMap_response Unmarshal r result
  have hfail : (drained r).Body.fail = none := hread
  have hdd : drained (drained r) = drained r := rfl
  refine ⟨hresp, ?_, ?_⟩
  · rw [hresp]; simp [ReadAll, drained, hread]
  · rw [hresp]
    by_cases hj : r.Header.Get "Content-Type".toList = "application/json".toList
    · rw [if_pos hj, BodyMap_json Unmarshal (drained r) result2 hfail hj, hdd]
      rfl
    · rw [if_neg hj]
      by_cases hf : r.Header.Get "Content-Type".toList =
          "application/x-www-form-urlencoded".toList
      · rw [if_pos hf, BodyMap_form Unmarshal (drained r) result2 hfail hf, hdd]
        rfl
      · rw [if_neg hf, BodyMap_raw Unmarshal (drained r) result2 hfail hj hf, hdd]
        rfl

/-- C6, amended, at the example: the second call on the `text/plain` response with body
`hello` reads the empty text without error and reaches line 156 with it. -/
theorem second_BodyMap_reads_empty_text_example :
    (ReadAll (Response.BodyMap acceptAll (responseOf "text/plain" "hello") ()).response.Body).1
        = ([], none) ∧
    Response.BodyMap acceptAll
        (Response.BodyMap acceptAll (responseOf "text/plain" "hello") ()).response () =
      .illTyped 156 [] (drained (responseOf "text/plain" "hello")) :=
  ⟨(second_BodyMap_reads_empty_text acceptAll (responseOf "text/plain" "hello") () () rfl).2.1,
   rfl⟩

/-! ## Header configuration -/

theorem WithHeaders_cons (c : Client) (kv : Str × Str) (H : GoMap Str) :
    c.WithHeaders (kv :: H) =
      Client.WithHeaders { c with headers := Header.Set c.headers kv.1 kv.2 } H := rfl

theorem WithHeaders_frame (H : GoMap Str) :
    ∀ c : Client, (c.WithHeaders H).query = c.query ∧ (c.WithHeaders H).body = c.body := by
  induction H with
  | nil => intro c; exact ⟨rfl, rfl⟩
  | cons kv H ih => intro c; rw [WithHeaders_cons]; exact ih _

theorem WithHeaders_get_other (H : GoMap Str) :
    ∀ (c : Client) (key : Str), key ∉ canonKeys H →
      GoMap.get (c.WithHeaders H).headers key = GoMap.get c.headers key := by
  induction H with
  | nil => intro c key _; rfl
  | cons kv H ih =>
    intro c key hkey
    simp only [canonKeys, List.map_cons, List.mem_cons, not_or] at hkey
    rw [WithHeaders_cons, ih _ key hkey.2]
    simp only [Header.Set, GoMap.get_set]
    rw [if_neg (fun e => hkey.1 e.symm)]

theorem WithHeaders_get_mem (H : GoMap Str) :
    ∀ (c : Client), (canonKeys H).Nodup → ∀ k v, (k, v) ∈ H →
      GoMap.get (c.WithHeaders H).headers (CanonicalMIMEHeaderKey k) = some [v] := by
  induction H with
  | nil => intro c _ k v h; simp at h
  | cons kv H ih =>
    intro c hnd k v hmem
    simp only [canonKeys, List.map_cons, List.nodup_cons] at hnd
    rw [WithHeaders_cons]
    rcases List.mem_cons.1 hmem with h | h
    · subst h
      rw [WithHeaders_get_other H _ _ hnd.1]
      simp only [Header.Set, GoMap.get_set, if_true]
    · exact ih _ hnd.2 k v h

theorem WithHeaders_perm (H H' : GoMap Str) (hp : H'.Perm H) (hnd : (canonKeys H).Nodup)
    (c c' : Client) (hc : ∀ key, GoMap.get c'.headers key = GoMap.get c.headers key)
    (key : Str) :
    GoMap.get (c'.WithHeaders H').headers key = GoMap.get (c.WithHeaders H).headers key := by
  have hpk : (canonKeys H').Perm (canonKeys H) := hp.map _
  by_cases hkey : key ∈ canonKeys H
  · obtain ⟨⟨k, v⟩, hkv, rfl⟩ := List.mem_map.1 hkey
    rw [WithHeaders_get_mem H c hnd k v hkv,
      WithHeaders_get_mem H' c' (hpk.nodup_iff.2 hnd) k v (hp.mem_iff.2 hkv)]
  · rw [WithHeaders_get_other H c key hkey,
      WithHeaders_get_other H' c' key (fun h => hkey (hpk.mem_iff.1 h)), hc key]

/-- C9 as stated fails: the mapping with the two keys `x-a -> 1` and `X-A -> 2`, visited
in its two possible orders, gives two different header sets: `X-A` ends with the value
`2` in one and `1` in the other, and the key `x-a` itself is in neither. -/
theorem WithHeaders_depends_on_visiting_order :
    [("X-A".toList, "2".toList), ("x-a".toList, "1".toList)].Perm
        [("x-a".toList, "1".toList), ("X-A".toList, "2".toList)] ∧
      (GoMap.keys [("x-a".toList, "1".toList), ("X-A".toList, "2".toList)]).Nodup ∧
      ((New.WithHeaders []).WithHeaders
          [("x-a".toList, "1".toList), ("X-A".toList, "2".toList)]).headers =
        [("X-A".toList, ["2".toList])] ∧
      ((New.WithHeaders []).WithHeaders
          [("X-A".toList, "2".toList), ("x-a".toList, "1".toList)]).headers =
        [("X-A".toList, ["1".toList])] := by
  refine ⟨?_, by decide, by decide, by decide⟩
  exact List.Perm.swap _ _ _

/-- C9, amended: header keys are stored in canonical form.  For mappings `H1` and `H2`
in each of which no two keys have the same canonical form, after `WithHeaders(H1)` and
`WithHeaders(H2)` on a fresh client: the canonical form of every key of `H2` maps to
its `H2` value; the canonical form of a key of `H1` that is not the canonical form of a
key of `H2` maps to its `H1` value; no other key is present; the header set is the same
for every order in which the entries of `H1` and of `H2` are visited; the query and the
body of the client are unchanged. -/
theorem WithHeaders_overwrites_by_canonical_key (H1 H2 : GoMap Str)
    (h1 : (canonKeys H1).Nodup) (h2 : (canonKeys H2).Nodup) :
    (∀ k v, (k, v) ∈ H2 →
      GoMap.get ((New.WithHeaders H1).WithHeaders H2).headers (CanonicalMIMEHeaderKey k) =
        some [v]) ∧
    (∀ k v, (k, v) ∈ H1 → CanonicalMIMEHeaderKey k ∉ canonKeys H2 →
      GoMap.get ((New.WithHeaders H1).WithHeaders H2).headers (CanonicalMIMEHeaderKey k) =
        some [v]) ∧
    (∀ key, key ∉ canonKeys H1 → key ∉ canonKeys H2 →
      GoMap.get ((New.WithHeaders H1).WithHeaders H2).headers key = none) ∧
    (∀ H1' H2' : GoMap Str, H1'.Perm H1 → H2'.Perm H2 → ∀ key,
      GoMap.get ((New.WithHeaders H1').WithHeaders H2').headers key =
        GoMap.get ((New.WithHeaders H1).WithHeaders H2).headers key) ∧
    ((New.WithHeaders H1).WithHeaders H2).query = New.query ∧
    ((New.WithHeaders H1).WithHeaders H2).body = New.body := by
  refine ⟨fun k v hkv => WithHeaders_get_mem H2 _ h2 k v hkv, fun k v hkv hk => ?_,
    fun key hk1 hk2 => ?_, fun H1' H2' hp1 hp2 key => ?_, ?_, ?_⟩
  · rw [WithHeaders_get_other H2 _ _ hk]
    exact WithHeaders_get_mem H1 _ h1 k v hkv
  · rw [WithHeaders_get_other H2 _ _ hk2, WithHeaders_get_other H1 _ _ hk1]
    rfl
  · exact WithHeaders_perm H2 H2' hp2 h2 _ _
      (fun key' => WithHeaders_perm H1 H1' hp1 h1 New New (fun _ => rfl) key') key
  · rw [(WithHeaders_frame H2 _).1, (WithHeaders_frame H1 _).1]
  · rw [(WithHeaders_frame H2 _).2, (WithHeaders_frame H1 _).2]

/-- C9, amended, at an example: `content-type` and `Accept` set, then `Content-Type`
set again; `Content-Type` holds the later value. -/
theorem WithHeaders_overwrites_by_canonical_key_example :
    GoMap.get ((New.WithHeaders [("content-type".toList, "text/plain".toList),
        ("Accept".toList, "*/*".toList)]).WithHeaders
        [("Content-Type".toList, "application/json".toList)]).headers
      (CanonicalMIMEHeaderKey "Content-Type".toList) = some ["application/json".toList] :=
  (WithHeaders_overwrites_by_canonical_key
    [("content-type".toList, "text/plain".toList), ("Accept".toList, "*/*".toList)]
    [("Content-Type".toList, "application/json".toList)] (by decide) (by decide)).1
    "Content-Type".toList "application/json".toList (by decide)

/-! ## The query of the request URL -/

theorem cut_of_not_mem (sep : Char) (a : Str) (h : sep ∉ a) : cut sep a = (a, [], false) := by
  induction a with
  | nil => rfl
  | cons c cs ih =>
    simp only [List.mem_cons, not_or] at h
    have hc : ¬ c = sep := fun e => h.1 e.symm
    simp only [cut, hc, if_false, ih h.2]

theorem cut_append (sep : Char) (a b : Str) (h : sep ∉ a) :
    cut sep (a ++ sep :: b) = (a, b, true) := by
  induction a with
  | nil => simp [cut]
  | cons c cs ih =>
    simp only [List.mem_cons, not_or] at h
    have hc : ¬ c = sep := fun e => h.1 e.symm
    rw [List.cons_append]
    unfold cut
    rw [if_neg hc, ih h.2]

theorem cut_fst_not_mem (sep : Char) (s : Str) : sep ∉ (cut sep s).1 := by
  induction s with
  | nil => simp [cut]
  | cons c cs ih =>
    by_cases hc : c = sep
    · simp [cut, hc]
    · simp only [cut, hc, if_false, List.mem_cons, not_or]
      exact ⟨fun e => hc e.symm, ih⟩

theorem cut_fst_subset (sep : Char) (s : Str) : ∀ x ∈ (cut sep s).1, x ∈ s := by
  induction s with
  | nil => simp [cut]
  | cons c cs ih =>
    by_cases hc : c = sep
    · simp [cut, hc]
    · simp only [cut, hc, if_false, List.mem_cons]
      rintro x (h | h)
      · exact Or.inl h
      · exact Or.inr (ih x h)

theorem urlParse_ok (okHier okFragment : Str → Bool) (raw : Str) (u : URL)
    (h : urlParse okHier okFragment raw = .ok u) :
    u.RawQuery = queryOf (cut '#' raw).1 ∧ u.hier = hierOf (cut '#' raw).1 := by
  unfold urlParse at h
  simp only at h
  split_ifs at h
  all_goals (cases h; exact ⟨by simp [queryOf, *], by simp [hierOf, *]⟩)


theorem hierOf_no_query (u : Str) : '?' ∉ hierOf u := by
  unfold hierOf
  split
  · rename_i h
    simp only [Bool.and_eq_true, beq_iff_eq] at h
    obtain ⟨hlast, hcount⟩ := h
    have hsplit : u = u.dropLast ++ ['?'] := by
      have := List.dropLast_append_getLast? '?' (by simpa using hlast)
      exact this.symm
    rw [hsplit, List.count_append] at hcount
    simp only [List.count_cons_self, List.count_nil, zero_add] at hcount
    have : List.count '?' u.dropLast = 0 := by omega
    exact List.count_eq_zero.1 this
  · exact cut_fst_not_mem '?' u

theorem hierOf_subset (u : Str) : ∀ x ∈ hierOf u, x ∈ u := by
  unfold hierOf
  split
  · intro x hx
    exact List.mem_of_mem_dropLast hx
  · exact cut_fst_subset '?' u

theorem queryOf_rebuilt (hier q : Str) (f : Bool) (hh : '?' ∉ hier) (hq : '?' ∉ q) :
    queryOf (hier ++ (if (f || decide (q ≠ [])) = true then '?' :: q else [])) = q := by
  by_cases hqe : q = []
  · subst hqe
    cases f
    · simp only [queryOf, Bool.false_or, ne_eq, not_true_eq_false, decide_False,
        Bool.false_eq_true, if_false, List.append_nil]
      split
      · rfl
      · rw [cut_of_not_mem '?' hier hh]
    · simp only [queryOf, Bool.true_or, if_true]
      split
      · rfl
      · rw [cut_append '?' hier [] hh]
  · have hne : (f || decide (q ≠ [])) = true := by simp [hqe]
    rw [if_pos hne]
    unfold queryOf
    have hlast : (hier ++ '?' :: q).getLast? ≠ some '?' := by
      intro h
      have hq' : ('?' :: q).getLast? = q.getLast? := by
        cases q with
        | nil => exact absurd rfl hqe
        | cons a as => simp [List.getLast?_cons_cons]
      rw [List.getLast?_append_of_ne_nil _ (by simp), hq'] at h
      exact hq (List.mem_of_getLast?_eq_some h)
    have : ((hier ++ '?' :: q).getLast? == some '?') = false := by
      simpa using hlast
    rw [this]
    simp only [Bool.false_and, Bool.false_eq_true, if_false]
    rw [cut_append '?' hier q hh]


theorem upperhex_plain : ∀ n, n < 16 → upperhex n ≠ '#' ∧ upperhex n ≠ '?' := by
  decide

theorem escapeByte_plain (c x : Char) (hx : x ∈ escapeByte c) : x ≠ '#' ∧ x ≠ '?' := by
  unfold escapeByte at hx
  split at hx
  · simp only [List.mem_singleton] at hx
    subst hx
    decide
  · split at hx
    · simp only [List.mem_cons, List.mem_singleton, List.not_mem_nil, or_false] at hx
      rcases hx with h | h | h
      · subst h; decide
      · subst h; exact upperhex_plain _ (Nat.mod_lt _ (by decide))
      · subst h; exact upperhex_plain _ (Nat.mod_lt _ (by decide))
    · rename_i hesc
      simp only [List.mem_singleton] at hx
      subst hx
      constructor
      · intro h
        subst h
        exact hesc (by decide)
      · intro h
        subst h
        exact hesc (by decide)

theorem QueryEscape_plain (s : Str) : ∀ x ∈ QueryEscape s, x ≠ '#' ∧ x ≠ '?' := by
  induction s with
  | nil => intro x hx; simp [QueryEscape] at hx
  | cons c cs ih =>
    intro x hx
    simp only [QueryEscape, List.mem_append] at hx
    rcases hx with h | h
    · exact escapeByte_plain c x h
    · exact ih x h

theorem encodeValues_plain (ke : Str) (hke : ∀ x ∈ ke, x ≠ '#' ∧ x ≠ '?') (vs : List Str) :
    ∀ buf : Str, (∀ x ∈ buf, x ≠ '#' ∧ x ≠ '?') →
      ∀ x ∈ encodeValues ke buf vs, x ≠ '#' ∧ x ≠ '?' := by
  induction vs with
  | nil => intro buf hbuf; exact hbuf
  | cons v vs ih =>
    intro buf hbuf
    unfold encodeValues
    apply ih
    intro x hx
    simp only [List.mem_append, List.mem_singleton] at hx
    rcases hx with ((h | h) | h) | h
    · split at h
      · simp only [List.mem_append, List.mem_singleton] at h
        rcases h with h | h
        · exact hbuf x h
        · subst h; decide
      · exact hbuf x h
    · exact hke x h
    · subst h; decide
    · exact QueryEscape_plain v x h

theorem encodeKeys_plain (v : Values) (ks : List Str) :
    ∀ buf : Str, (∀ x ∈ buf, x ≠ '#' ∧ x ≠ '?') →
      ∀ x ∈ encodeKeys v buf ks, x ≠ '#' ∧ x ≠ '?' := by
  induction ks with
  | nil => intro buf hbuf; exact hbuf
  | cons k ks ih =>
    intro buf hbuf
    unfold encodeKeys
    exact ih _ (encodeValues_plain _ (QueryEscape_plain k) _ buf hbuf)

theorem Encode_plain (v : Values) : ∀ x ∈ Values.Encode v, x ≠ '#' ∧ x ≠ '?' := by
  unfold Values.Encode
  split
  · intro x hx; simp at hx
  · exact encodeKeys_plain v _ [] (by simp)

theorem cut_fragment (a frag : Str) (h : '#' ∉ a) :
    (cut '#' (a ++ (if frag ≠ [] then '#' :: frag else []))).1 = a := by
  by_cases hf : frag = []
  · simp only [hf, ne_eq, not_true_eq_false, if_false, List.append_nil]
    rw [cut_of_not_mem '#' a h]
  · rw [if_pos hf, cut_append '#' a frag h]

theorem NewRequest_ok {σ : Type} (env : Env σ) (method url : Str) (body : Option Reader)
    (req : Request) (h : NewRequest env method url body = .ok req) :
    ∃ u, urlParse env.okHier env.okFragment url = .ok u ∧ req.URL = u ∧
      req.Body = (body.map Reader.unread).getD [] := by
  unfold NewRequest at h
  simp only at h
  cases hu : urlParse env.okHier env.okFragment url with
  | error e =>
    rw [hu] at h
    split_ifs at h
  | ok u =>
    rw [hu] at h
    split_ifs at h
    all_goals (cases h; exact ⟨u, rfl, rfl, by cases body <;> rfl⟩)

theorem request_RawQuery {σ : Type} (env : Env σ) (c : Client) (method uri : Str)
    (req : Request) (h : Client.request env c method uri = .ok req) :
    req.URL.RawQuery = Values.Encode c.query ∧ req.Header = c.headers ∧
      req.Body = (c.body.map Reader.unread).getD [] := by
  unfold Client.request at h
  cases hu : urlParse env.okHier env.okFragment uri with
  | error e => rw [hu] at h; cases h
  | ok u =>
    rw [hu] at h
    simp only at h
    cases hreq0 : NewRequest env method
        (URL.String { u with RawQuery := Values.Encode c.query }) c.body with
    | error e => rw [hreq0] at h; cases h
    | ok req0 =>
      rw [hreq0] at h
      cases h
      obtain ⟨u2, hu2, hurl, hbody⟩ := NewRequest_ok env _ _ _ _ hreq0
      refine ⟨?_, rfl, hbody⟩
      simp only
      rw [hurl]
      obtain ⟨hq2, -⟩ := urlParse_ok _ _ _ _ hu2
      obtain ⟨-, hh⟩ := urlParse_ok _ _ _ _ hu
      have hhq : '?' ∉ u.hier := by rw [hh]; exact hierOf_no_query _
      have hhf : '#' ∉ u.hier := by
        rw [hh]
        exact fun hm => cut_fst_not_mem '#' uri (hierOf_subset _ _ hm)
      have hE := Encode_plain c.query
      have hpre : '#' ∉ u.hier ++
          (if (u.ForceQuery || decide (Values.Encode c.query ≠ [])) = true
            then '?' :: Values.Encode c.query else []) := by
        intro hm
        rcases List.mem_append.1 hm with h1 | h1
        · exact hhf h1
        · split at h1
          · rcases List.mem_cons.1 h1 with h2 | h2
            · exact absurd h2 (by decide)
            · exact (hE _ h2).1 rfl
          · simp at h1
      rw [hq2]
      have hs : URL.String { u with RawQuery := Values.Encode c.query } =
          (u.hier ++ (if (u.ForceQuery || decide (Values.Encode c.query ≠ [])) = true
            then '?' :: Values.Encode c.query else [])) ++
            (if u.Fragment ≠ [] then '#' :: u.Fragment else []) := by
        simp [URL.String]
      rw [hs, cut_fragment _ _ hpre]
      exact queryOf_rebuilt u.hier _ u.ForceQuery hhq (fun hm => (hE _ hm).2 rfl)

/-! ## The accumulated query and its encoding -/

theorem Char.eq_of_toNat_eq {a b : Char} (h : a.toNat = b.toNat) : a = b := by
  rw [← Char.ofNat_toNat a, ← Char.ofNat_toNat b, h]

theorem strLe_total : ∀ a b : Str, strLe a b = true ∨ strLe b a = true := by
  intro a
  induction a with
  | nil => intro b; exact Or.inl rfl
  | cons x xs ih =>
    intro b
    cases b with
    | nil => exact Or.inr rfl
    | cons y ys =>
      simp only [strLe, Bool.or_eq_true, decide_eq_true_eq, Bool.and_eq_true, beq_iff_eq]
      rcases Nat.lt_trichotomy x.toNat y.toNat with h | h | h
      · exact Or.inl (Or.inl h)
      · have hxy : x = y := Char.eq_of_toNat_eq h
        rcases ih ys with h' | h'
        · exact Or.inl (Or.inr ⟨hxy, h'⟩)
        · exact Or.inr (Or.inr ⟨hxy.symm, h'⟩)
      · exact Or.inr (Or.inl h)

theorem strLe_trans : ∀ a b c : Str, strLe a b = true → strLe b c = true → strLe a c = true := by
  intro a
  induction a with
  | nil => intro b c _ _; rfl
  | cons x xs ih =>
    intro b c hab hbc
    cases b with
    | nil => simp [strLe] at hab
    | cons y ys =>
      cases c with
      | nil => simp [strLe] at hbc
      | cons z zs =>
        simp only [strLe, Bool.or_eq_true, decide_eq_true_eq, Bool.and_eq_true,
          beq_iff_eq] at hab hbc ⊢
        rcases hab with h1 | ⟨h1, h1'⟩
        · rcases hbc with h2 | ⟨h2, -⟩
          · exact Or.inl (lt_trans h1 h2)
          · subst h2; exact Or.inl h1
        · subst h1
          rcases hbc with h2 | ⟨h2, h2'⟩
          · exact Or.inl h2
          · exact Or.inr ⟨h2, ih ys zs h1' h2'⟩

theorem WithQuery_query (q : GoMap Str) :
    ∀ c : Client, (c.WithQuery q).query =
      q.foldl (fun m kv => Values.Set m kv.1 kv.2) c.query := by
  induction q with
  | nil => intro c; rfl
  | cons kv q ih =>
    intro c
    show (Client.WithQuery { c with query := Values.Set c.query kv.1 kv.2 } q).query = _
    rw [ih]
    rfl

theorem WithQuery_calls (qs : List (GoMap Str)) :
    ∀ c : Client, (qs.foldl Client.WithQuery c).query =
      qs.flatten.foldl (fun m kv => Values.Set m kv.1 kv.2) c.query := by
  induction qs with
  | nil => intro c; rfl
  | cons q qs ih =>
    intro c
    rw [List.foldl_cons, ih, WithQuery_query, List.flatten_cons, List.foldl_append]

theorem lookup_append_single (k : Str) (l : List (Str × Str)) (kv : Str × Str) :
    List.lookup k (l ++ [kv]) =
      match List.lookup k l with
      | some v => some v
      | none => if kv.1 = k then some kv.2 else none := by
  induction l with
  | nil =>
    obtain ⟨k0, v0⟩ := kv
    by_cases h : k0 = k
    · subst h; simp [List.lookup]
    · have h' : (k == k0) = false := by
        simp only [beq_eq_false_iff_ne, ne_eq]
        exact fun e => h e.symm
      simp [List.lookup, h, h']
  | cons p l ih =>
    obtain ⟨k1, v1⟩ := p
    by_cases h : k = k1
    · subst h; simp [List.lookup]
    · have h' : (k == k1) = false := by simpa using h
      rw [List.cons_append]
      simp only [List.lookup, h']
      exact ih

theorem setAll_get (all : List (Str × Str)) :
    ∀ (m : Values) (k : Str),
      GoMap.get (all.foldl (fun m kv => Values.Set m kv.1 kv.2) m) k =
        match List.lookup k all.reverse with
        | some v => some [v]
        | none => GoMap.get m k := by
  induction all with
  | nil => intro m k; rfl
  | cons kv all ih =>
    intro m k
    rw [List.foldl_cons, ih, List.reverse_cons, lookup_append_single]
    cases List.lookup k all.reverse with
    | some v => rfl
    | none =>
      simp only [Values.Set, GoMap.get_set]
      by_cases h : kv.1 = k <;> simp [h]

theorem setAll_keys (all : List (Str × Str)) :
    ∀ (m : Values), ((GoMap.keys m).Nodup →
        (GoMap.keys (all.foldl (fun m kv => Values.Set m kv.1 kv.2) m)).Nodup) ∧
      ∀ k, k ∈ GoMap.keys (all.foldl (fun m kv => Values.Set m kv.1 kv.2) m) ↔
        k ∈ GoMap.keys m ∨ k ∈ all.map Prod.fst := by
  induction all with
  | nil => intro m; exact ⟨fun h => h, fun k => by simp⟩
  | cons kv all ih =>
    intro m
    rw [List.foldl_cons]
    refine ⟨fun h => (ih _).1 (GoMap.nodup_keys_set m _ _ h), fun k => ?_⟩
    rw [(ih _).2 k]
    simp only [Values.Set, GoMap.mem_keys_set, List.map_cons, List.mem_cons]
    tauto

theorem joinAmp_cons (x : Str) (xs : List Str) :
    joinAmp (x :: xs) = x ++ (xs.map (fun p => '&' :: p)).flatten := by
  induction xs generalizing x with
  | nil => simp [joinAmp]
  | cons y ys ih => simp [joinAmp, ih]

theorem encodeKeys_nonempty (v : Values) (val : Str → Str) (ks : List Str)
    (hv : ∀ k ∈ ks, GoMap.get v k = some [val k]) :
    ∀ buf : Str, buf ≠ [] →
      encodeKeys v buf ks = buf ++
        (ks.map (fun k => '&' :: (QueryEscape k ++ '=' :: QueryEscape (val k)))).flatten := by
  induction ks with
  | nil => intro buf _; simp [encodeKeys]
  | cons k ks ih =>
    intro buf hbuf
    have hlen : buf.length > 0 := List.length_pos.2 hbuf
    unfold encodeKeys
    rw [hv k (List.mem_cons_self _ _)]
    simp only [Option.getD_some, encodeValues, hlen, if_true]
    rw [ih (fun k' hk' => hv k' (List.mem_cons_of_mem _ hk')) _ (by simp)]
    simp

theorem encodeKeys_spec (v : Values) (val : Str → Str) (ks : List Str)
    (hv : ∀ k ∈ ks, GoMap.get v k = some [val k]) :
    encodeKeys v [] ks =
      joinAmp (ks.map (fun k => QueryEscape k ++ '=' :: QueryEscape (val k))) := by
  cases ks with
  | nil => rfl
  | cons k ks =>
    unfold encodeKeys
    rw [hv k (List.mem_cons_self _ _)]
    simp only [Option.getD_some, encodeValues, List.length_nil, gt_iff_lt, lt_self_iff_false,
      if_false, List.nil_append]
    rw [encodeKeys_nonempty v val ks (fun k' hk' => hv k' (List.mem_cons_of_mem _ hk')) _
      (by simp), List.map_cons, joinAmp_cons, List.map_map]
    simp [Function.comp_def]


theorem mem_flatten_keys (qs : List (GoMap Str)) (k : Str) :
    k ∈ qs.flatten.map Prod.fst ↔ ∃ q ∈ qs, k ∈ GoMap.keys q := by
  simp only [List.mem_map, List.mem_flatten, GoMap.keys]
  constructor
  · rintro ⟨kv, ⟨q, hq, hkv⟩, rfl⟩
    exact ⟨q, hq, kv, hkv, rfl⟩
  · rintro ⟨q, hq, kv, hkv, rfl⟩
    exact ⟨kv, ⟨q, hq, hkv⟩, rfl⟩

theorem Encode_of_calls (qs : List (GoMap Str)) (v : Values)
    (hv : v = (qs.foldl Client.WithQuery New).query) :
    ∃ ks : List Str, ks.Sorted (fun a b => strLe a b = true) ∧ ks.Nodup ∧
      (∀ k, k ∈ ks ↔ ∃ q ∈ qs, k ∈ GoMap.keys q) ∧
      Values.Encode v = joinAmp (ks.map (fun k =>
        QueryEscape k ++ '=' :: QueryEscape ((lastValue qs k).getD []))) := by
  have hv' : v = qs.flatten.foldl (fun m kv => Values.Set m kv.1 kv.2) [] := by
    rw [hv, WithQuery_calls]; rfl
  haveI : IsTotal Str (fun a b => strLe a b = true) := ⟨strLe_total⟩
  haveI : IsTrans Str (fun a b => strLe a b = true) := ⟨strLe_trans⟩
  have hperm := List.perm_insertionSort (fun a b => strLe a b = true) (GoMap.keys v)
  have hnd : (GoMap.keys v).Nodup := by
    rw [hv']; exact (setAll_keys qs.flatten []).1 List.nodup_nil
  have hmem : ∀ k, k ∈ GoMap.keys v ↔ ∃ q ∈ qs, k ∈ GoMap.keys q := by
    intro k
    rw [hv', (setAll_keys qs.flatten []).2 k, ← mem_flatten_keys]
    simp [GoMap.keys]
  have hget : ∀ k ∈ List.insertionSort (fun a b => strLe a b = true) (GoMap.keys v),
      GoMap.get v k = some [(lastValue qs k).getD []] := by
    intro k hk
    have hk' : k ∈ GoMap.keys v := hperm.mem_iff.1 hk
    have hne : GoMap.get v k ≠ none := fun h => (GoMap.get_eq_none v k).1 h hk'
    have hg : GoMap.get v k =
        match List.lookup k qs.flatten.reverse with
        | some x => some [x]
        | none => GoMap.get ([] : Values) k := by
      rw [hv']; exact setAll_get qs.flatten [] k
    unfold lastValue
    cases hl : List.lookup k qs.flatten.reverse with
    | some x => rw [hg, hl]; rfl
    | none =>
      rw [hl] at hg
      exact absurd hg hne
  refine ⟨List.insertionSort (fun a b => strLe a b = true) (GoMap.keys v),
    List.sorted_insertionSort _ _, hperm.nodup_iff.2 hnd,
    fun k => (hperm.mem_iff).trans (hmem k), ?_⟩
  unfold Values.Encode
  split
  · rename_i hlen
    have : v = [] := List.length_eq_zero.1 hlen
    subst this
    rfl
  · exact encodeKeys_spec v _ _ hget

/-- C10: the configured query replaces the query of the URL.  For a client whose query
is what the calls `WithQuery(q)` for `q` in `qs` accumulated, and any URL text: when `do`
builds its request, the query of the request URL is `Encode` of the client's query,
whatever query the URL text held; it is the texts `key=value` (both escaped) joined by
`&`, one for each key named by a call, keys in ascending order, the value being that of
the last entry visited for the key; with no configured parameter it is empty. -/
theorem request_query_is_configured_query {σ : Type} (env : Env σ) (qs : List (GoMap Str))
    (c : Client) (hc : c.query = (qs.foldl Client.WithQuery New).query)
    (method uri : Str) (req : Request) (h : Client.request env c method uri = .ok req) :
    req.URL.RawQuery = Values.Encode c.query ∧
    (∃ ks : List Str, ks.Sorted (fun a b => strLe a b = true) ∧ ks.Nodup ∧
      (∀ k, k ∈ ks ↔ ∃ q ∈ qs, k ∈ GoMap.keys q) ∧
      req.URL.RawQuery = joinAmp (ks.map (fun k =>
        QueryEscape k ++ '=' :: QueryEscape ((lastValue qs k).getD [])))) ∧
    (qs.flatten = [] → req.URL.RawQuery = []) := by
  obtain ⟨hq, -, -⟩ := request_RawQuery env c method uri req h
  refine ⟨hq, ?_, fun hempty => ?_⟩
  · rw [hq]
    exact Encode_of_calls qs c.query hc
  · rw [hq, hc, WithQuery_calls, hempty]
    rfl

/-- C10, at an example: the calls `WithQuery({b: "1 2", a: "x&y"})` and
`WithQuery({b: "z"})`, then a request for `http://h/p?old=1#top`: the request URL has the
query `a=x%26y&b=z` and nothing of `old=1`. -/
theorem request_query_is_configured_query_example :
    Client.request recordingEnv
        ((New.WithQuery [("b".toList, "1 2".toList), ("a".toList, "x&y".toList)]).WithQuery
          [("b".toList, "z".toList)]) "GET".toList "http://h/p?old=1#top".toList =
      .ok { Method := "GET".toList,
            URL := { hier := "http://h/p".toList, ForceQuery := false,
                     RawQuery := "a=x%26y&b=z".toList, Fragment := "top".toList },
            Header := [], Body := [], ContentLength := 0 } ∧
    "a=x%26y&b=z".toList =
      Values.Encode ((New.WithQuery [("b".toList, "1 2".toList),
        ("a".toList, "x&y".toList)]).WithQuery [("b".toList, "z".toList)]).query :=
  ⟨rfl, (request_query_is_configured_query recordingEnv
    [[("b".toList, "1 2".toList), ("a".toList, "x&y".toList)], [("b".toList, "z".toList)]]
    ((New.WithQuery [("b".toList, "1 2".toList), ("a".toList, "x&y".toList)]).WithQuery
      [("b".toList, "z".toList)]) rfl "GET".toList "http://h/p?old=1#top".toList
    { Method := "GET".toList,
      URL := { hier := "http://h/p".toList, ForceQuery := false,
               RawQuery := "a=x%26y&b=z".toList, Fragment := "top".toList },
      Header := [], Body := [], ContentLength := 0 } rfl).1⟩

end HttpClient
